import Mathlib

/-!
# Verification of the dp4gp noise-calibration code (`dp4gp/dp4gp.py`)

Shallow embedding of the differentially-private Gaussian-process prediction
mechanisms of the repository, over the real numbers:

* floating-point arithmetic is modelled by exact real arithmetic (`ℝ`);
* numpy matrices are `Matrix (Fin a) (Fin b) ℝ`, numpy 1-d arrays are
  `Fin a → ℝ`;
* `np.linalg.inv` is modelled by Mathlib's matrix inverse `A⁻¹`
  (`Ring.inverse A.det • A.adjugate`, which agrees with the numpy inverse
  whenever the matrix is invertible);
* `np.linalg.pinv` (Moore-Penrose pseudo-inverse, an external numpy routine)
  is modelled by an explicit function parameter `pinv`;
* `np.linalg.det` is `Matrix.det`, `np.log` is `Real.log`, `np.sqrt` is
  `Real.sqrt`;
* `np.max` / `np.min` of a 1-d array raise a `ValueError` on an empty array;
  where the source can reach that case they are modelled by `List.max?` on
  the list of entries (`none` = error), and where the surrounding code
  guarantees a nonempty array they are modelled by `Finset.sup'`/`Finset.inf'`;
* the stream of values produced by `np.random.rand` is an explicit function
  parameter; drawing of the actual multivariate-normal samples is outside the
  claims (the claims are about the mean and the covariance);
* a Python `assert`/`raise` is an `Except String` error value;
* mutation of the GP model object is modelled by state passing: a method that
  can mutate the model returns the model that results from the call.
-/

/-- GPy inference methods that appear in the source:
`ExactGaussianInference` (default of `GPRegression`), `VarDTC` (default of
`SparseGPRegression`) and `FITC` (set explicitly by the DP code). -/
inductive InferenceMethod : Type
  | exactGaussian : InferenceMethod
  | varDTC : InferenceMethod
  | fitc : InferenceMethod
deriving DecidableEq

open Matrix

/-- The part of a GPy dense GP-regression model that the DP code reads:
training inputs `X` (points of an abstract input type `α`), training targets
`Y`, the kernel function `kern` (so `kern.K(A,B)` is the matrix of pairwise
kernel values), the Gaussian-noise variance `Gaussian_noise.variance[0]`,
and the `inference_method` attribute. -/
structure GPModel (α : Type) (n : ℕ) where
  X : Fin n → α
  Y : Fin n → ℝ
  kern : α → α → ℝ
  sigmasqr : ℝ
  inference_method : InferenceMethod

/-- The part of a GPy `SparseGPRegression` model that the DP code reads:
the same data as a dense model plus the inducing-input locations `Z`. -/
structure SparseGPModel (α : Type) (n M : ℕ) where
  X : Fin n → α
  Y : Fin n → ℝ
  kern : α → α → ℝ
  sigmasqr : ℝ
  inference_method : InferenceMethod
  Z : Fin M → α

/-- `kern.K(P, Q)`: the matrix of pairwise kernel evaluations. -/
def Kmat (k : α → α → ℝ) (P : Fin a → α) (Q : Fin b → α) :
    Matrix (Fin a) (Fin b) ℝ :=
  Matrix.of fun i j => k (P i) (Q j)

/-- `np.max` of a 1-d array of length `n`: `none` models the `ValueError`
numpy raises on an empty array. -/
noncomputable def npmaxO (f : Fin n → ℝ) : Option ℝ :=
  (List.ofFn f).max?

/-- `np.max` of a 1-d array known to be nonempty (`NeZero n`). -/
noncomputable def npmax [NeZero n] (f : Fin n → ℝ) : ℝ :=
  have : Nonempty (Fin n) := ⟨⟨0, Nat.pos_of_ne_zero (NeZero.ne n)⟩⟩
  Finset.univ.sup' Finset.univ_nonempty f

/-- `np.min` of a 1-d array known to be nonempty (`NeZero n`). -/
noncomputable def npmin [NeZero n] (f : Fin n → ℝ) : ℝ :=
  have : Nonempty (Fin n) := ⟨⟨0, Nat.pos_of_ne_zero (NeZero.ne n)⟩⟩
  Finset.univ.inf' Finset.univ_nonempty f

/-- `DPGP_prior.calc_msense` (dp4gp.py lines 162-172):
`v1 = np.max(np.abs(np.sum(A.clip(min=0),1)))`,
`v2 = np.max(np.abs(np.sum((-A).clip(min=0),1)))`, result `np.max([v1,v2])`.
The source applies it both to square matrices and (in the sparse mechanism)
to rectangular ones, so it is embedded for an arbitrary `a × b` matrix.
`none` models the `ValueError` that `np.max` raises when the matrix has no
rows. -/
noncomputable def calc_msense (A : Matrix (Fin a) (Fin b) ℝ) : Option ℝ :=
  match npmaxO (fun i => |∑ j, max (A i j) 0|),
        npmaxO (fun i => |∑ j, max (-A i j) 0|) with
  | some v1, some v2 => some (max v1 v2)
  | _, _ => none

/-- `DPGP_prior.draw_cov_noise_samples` (lines 174-182), with the
`np.random.multivariate_normal` draw `G` passed as an explicit parameter.
Returns the pair (scaled noise samples, reported noise covariance). -/
noncomputable def draw_cov_noise_samples (sens epsilon delta : ℝ)
    (test_cov : Matrix (Fin m) (Fin m) ℝ) (msense : ℝ)
    (G : Fin N → Fin m → ℝ) :
    (Fin N → Fin m → ℝ) × Matrix (Fin m) (Fin m) ℝ :=
  (fun s i => G s i * sens * Real.sqrt (2 * Real.log (2 / delta)) / epsilon
      * msense,
   (msense * sens * Real.sqrt (2 * Real.log (2 / delta)) / epsilon) ^ 2
      • test_cov)

/-- The `DPGP_normal_prior` object: the base `DPGP` fields plus the cached
`invCov` computed by `calc_invCov` at construction. -/
structure DPGPNormalPrior (α : Type) (n : ℕ) where
  model : GPModel α n
  sens : ℝ
  epsilon : ℝ
  delta : ℝ
  invCov : Matrix (Fin n) (Fin n) ℝ

/-- `DPGP_normal_prior.__init__` together with `calc_invCov`
(lines 188-201): caches `invCov = inv(K_NN + sigmasqr*I)`. -/
noncomputable def DPGP_normal_prior_init (mdl : GPModel α n)
    (sens epsilon delta : ℝ) : DPGPNormalPrior α n :=
  { model := mdl, sens := sens, epsilon := epsilon, delta := delta,
    invCov := (Kmat mdl.kern mdl.X mdl.X
        + mdl.sigmasqr • (1 : Matrix (Fin n) (Fin n) ℝ))⁻¹ }

/-- `DPGP_normal_prior.draw_noise_samples` (lines 203-217), returning the
predictive mean and the reported noise covariance (the random samples are a
deterministic function of these and of the externally supplied normal draw,
see `draw_cov_noise_samples`).  `none` models the `ValueError` raised by
`np.max` inside `calc_msense` when the model has no training points. -/
noncomputable def normal_prior_draw_noise_samples (self : DPGPNormalPrior α n)
    (Xtest : Fin mtest → α) :
    Option ((Fin mtest → ℝ) × Matrix (Fin mtest) (Fin mtest) ℝ) :=
  let test_cov := Kmat self.model.kern Xtest Xtest
  match calc_msense self.invCov with
  | none => none
  | some msense =>
    let K_NN := Kmat self.model.kern self.model.X self.model.X
    let K_Nstar := Kmat self.model.kern self.model.X Xtest
    let mu := (K_Nstarᵀ * (K_NN + self.model.sigmasqr
        • (1 : Matrix (Fin n) (Fin n) ℝ))⁻¹).mulVec self.model.Y
    some (mu,
      (msense * self.sens * Real.sqrt (2 * Real.log (2 / self.delta))
          / self.epsilon) ^ 2 • test_cov)

/-- numpy's broadcast product `B * d` of an `a × b` matrix with a length-`b`
1-d array: entry `(i,j)` of `B` is multiplied by `d j` (column `j` is scaled
by `d j`). -/
def colScale (B : Matrix (Fin a) (Fin b) ℝ) (d : Fin b → ℝ) :
    Matrix (Fin a) (Fin b) ℝ :=
  Matrix.of fun i j => B i j * d j

/-- The per-training-point residual variances `lamb` of
`DPGP_pseudo_prior.draw_noise_samples` (lines 236-240):
`lamb[i] = Kdiag(X)[i] - K_NM[i,:]ᵀ · inv(K_MM) · K_NM[i,:]`. -/
noncomputable def lambVec (smdl : SparseGPModel α n M) : Fin n → ℝ :=
  let K_NM := Kmat smdl.kern smdl.X smdl.Z
  let invK_MM := (Kmat smdl.kern smdl.Z smdl.Z)⁻¹
  fun i => smdl.kern (smdl.X i) (smdl.X i)
    - (fun j => K_NM i j) ⬝ᵥ invK_MM.mulVec (fun j => K_NM i j)

/-- `diag = 1.0/(lamb + sigmasqr)` (line 243): the diagonal entries of
`(Λ + σ²I)⁻¹`. -/
noncomputable def diagVec (smdl : SparseGPModel α n M) : Fin n → ℝ :=
  fun i => 1 / (lambVec smdl i + smdl.sigmasqr)

/-- `Q = K_MM + np.dot(K_NM.T * diag, K_NM)` (line 246). -/
noncomputable def Qmat (smdl : SparseGPModel α n M) :
    Matrix (Fin M) (Fin M) ℝ :=
  Kmat smdl.kern smdl.Z smdl.Z
    + colScale (Kmat smdl.kern smdl.X smdl.Z)ᵀ (diagVec smdl)
      * Kmat smdl.kern smdl.X smdl.Z

/-- `K_pseudoInv = np.dot(np.linalg.inv(Q), K_NM.T) * diag` (line 254): the
memory-optimised computation (column-wise broadcast by the 1-d array
`diag`). -/
noncomputable def K_pseudoInv (smdl : SparseGPModel α n M) :
    Matrix (Fin M) (Fin n) ℝ :=
  colScale ((Qmat smdl)⁻¹ * (Kmat smdl.kern smdl.X smdl.Z)ᵀ) (diagVec smdl)

/-- The "slow" reference computation the source asserts against (lines
256-257): `np.dot(np.dot(np.linalg.inv(Q), K_NM.T), np.diag(1.0/(lamb +
sigmasqr)))`, a true product with the diagonal matrix. -/
noncomputable def K_pseudoInv_slow (smdl : SparseGPModel α n M) :
    Matrix (Fin M) (Fin n) ℝ :=
  ((Qmat smdl)⁻¹ * (Kmat smdl.kern smdl.X smdl.Z)ᵀ)
    * Matrix.diagonal (diagVec smdl)

/-- `pseudo_mu = np.dot(np.dot(np.dot(K_star, inv(Q)), K_NM.T) * diag, Y)`
(line 249). -/
noncomputable def pseudo_mu (smdl : SparseGPModel α n M)
    (Xtest : Fin mtest → α) : Fin mtest → ℝ :=
  (colScale (Kmat smdl.kern Xtest smdl.Z * (Qmat smdl)⁻¹
      * (Kmat smdl.kern smdl.X smdl.Z)ᵀ) (diagVec smdl)).mulVec smdl.Y

/-- The message of the `assert` at line 257 of the source. -/
def pseudoAssertMsg : String := "check our optimisation works"

/-- The result part of `DPGP_pseudo_prior.draw_noise_samples` (lines
221-263): the predictive mean and reported noise covariance, or an error if
the consistency `assert` fails or `np.max` is applied to an empty array. -/
noncomputable def pseudo_prior_draw_result (smdl : SparseGPModel α n M)
    (sens epsilon delta : ℝ) (Xtest : Fin mtest → α) :
    Except String ((Fin mtest → ℝ) × Matrix (Fin mtest) (Fin mtest) ℝ) :=
  let test_cov := Kmat smdl.kern Xtest Xtest
  if K_pseudoInv smdl = K_pseudoInv_slow smdl then
    match calc_msense (K_pseudoInv smdl) with
    | none => .error "ValueError: zero-size array to reduction operation"
    | some pseudo_msense =>
      .ok (pseudo_mu smdl Xtest,
        (pseudo_msense * sens * Real.sqrt (2 * Real.log (2 / delta))
            / epsilon) ^ 2 • test_cov)
  else .error pseudoAssertMsg

/-- `DPGP_pseudo_prior.draw_noise_samples` with the model state made
explicit: the first statement of the method (line 225) mutates the model,
setting `self.model.inference_method = FITC()`, before anything else runs;
the method therefore returns the mutated model together with its result. -/
noncomputable def pseudo_prior_draw_noise_samples (smdl : SparseGPModel α n M)
    (sens epsilon delta : ℝ) (Xtest : Fin mtest → α) :
    SparseGPModel α n M
      × Except String ((Fin mtest → ℝ) × Matrix (Fin mtest) (Fin mtest) ℝ) :=
  ({ smdl with inference_method := .fitc },
   pseudo_prior_draw_result smdl sens epsilon delta Xtest)

/-- The base `DPGP` object (lines 13-28): the model and the privacy
parameters, set once at construction. -/
structure DPGPBase (α : Type) (n : ℕ) where
  model : GPModel α n
  sens : ℝ
  epsilon : ℝ
  delta : ℝ

/-- The message of the `assert epsilon<=1` in `DPGP_cloaking.__init__`
(line 270). -/
def cloakingEpsMsg : String :=
  "The proof in Hall et al. 2013 is restricted to values of epsilon<=1."

/-- `DPGP_cloaking.__init__` (lines 268-270): stores the fields via the base
constructor, then asserts `epsilon <= 1`; an `AssertionError` is the
`.error` case. -/
noncomputable def DPGP_cloaking_init (mdl : GPModel α n)
    (sens epsilon delta : ℝ) : Except String (DPGPBase α n) :=
  if epsilon ≤ 1 then
    .ok { model := mdl, sens := sens, epsilon := epsilon, delta := delta }
  else .error cloakingEpsMsg

/-- `DPGP_cloaking.calcM` (lines 272-284): `M = Σ_i ls_i · c_i c_iᵀ`, the
lambda-weighted sum of the outer products of the cloaking column vectors. -/
noncomputable def calcM (ls : Fin n → ℝ) (cs : Fin n → Fin d → ℝ) :
    Matrix (Fin d) (Fin d) ℝ :=
  ∑ i, ls i • Matrix.vecMulVec (cs i) (cs i)

/-- `DPGP_cloaking.dL_dl` (lines 299-308): gradient of the cloaking
objective, `grads[j] = -trace(Minv · c_j c_jᵀ)`, returned as `grads + 1`.
`Minv = np.linalg.pinv(M)` is the externally computed pseudo-inverse,
supplied as the parameter `pinv`. -/
noncomputable def dL_dl
    (pinv : Matrix (Fin d) (Fin d) ℝ → Matrix (Fin d) (Fin d) ℝ)
    (ls : Fin n → ℝ) (cs : Fin n → Fin d → ℝ) : Fin n → ℝ :=
  fun j =>
    -(pinv (calcM ls cs) * Matrix.vecMulVec (cs j) (cs j)).trace + 1

/-- The loop of `DPGP_cloaking.findLambdas_grad` (lines 324-334), by
recursion on the remaining iteration count: take a gradient step with
learning rate `lr = 0.05`, clip negative entries to zero, and return early
once the largest coordinate change is below `1e-5`. -/
noncomputable def gradLoop [NeZero n]
    (pinv : Matrix (Fin d) (Fin d) ℝ → Matrix (Fin d) (Fin d) ℝ)
    (cs : Fin n → Fin d → ℝ) : ℕ → (Fin n → ℝ) → (Fin n → ℝ)
  | 0, ls => ls
  | it + 1, ls =>
    let delta_ls := fun i => -(dL_dl pinv ls cs i) * 0.05
    let ls1 := fun i => ls i + delta_ls i
    let ls2 := fun i => if ls1 i < 0 then 0 else ls1 i
    if npmax (fun i => |ls i - ls2 i|) < 1e-5 then ls2
    else gradLoop pinv cs it ls2

/-- `DPGP_cloaking.findLambdas_grad` (lines 310-334): start from the random
point `ls = 0.1*np.random.rand(len(cs))*0.8` (the values drawn by
`np.random.rand` are the parameter `rand`, each in `[0,1)`) and run the
projected-gradient loop for at most `maxit` iterations. -/
noncomputable def findLambdas_grad [NeZero n]
    (pinv : Matrix (Fin d) (Fin d) ℝ → Matrix (Fin d) (Fin d) ℝ)
    (cs : Fin n → Fin d → ℝ) (rand : Fin n → ℝ) (maxit : ℕ) : Fin n → ℝ :=
  gradLoop pinv cs maxit (fun i => 0.1 * rand i * 0.8)

/-- The candidate score of `findLambdas_repeat` (lines 367-372):
`logDetM = np.log(detM)` when `detM > 0`, and the sentinel `-1000`
otherwise. -/
noncomputable def logDetSentinel (A : Matrix (Fin d) (Fin d) ℝ) : ℝ :=
  if A.det ≤ 0 then -1000 else Real.log A.det

/-- The gradient-descent output of attempt `j` of outer round `k` of
`findLambdas_repeat`: `rands k j` is the vector drawn by `np.random.rand`
inside that call of `findLambdas_grad`. -/
noncomputable def attemptOf [NeZero n]
    (pinv : Matrix (Fin d) (Fin d) ℝ → Matrix (Fin d) (Fin d) ℝ)
    (cs : Fin n → Fin d → ℝ) (rands : ℕ → ℕ → Fin n → ℝ) (Nits : ℕ)
    (k j : ℕ) : Fin n → ℝ :=
  findLambdas_grad pinv cs (rands k j) Nits

/-- One iteration of the `for it in range(Nattempts)` loop of
`findLambdas_repeat` (lines 359-375): run `findLambdas_grad`, skip the
attempt if `np.min(ls) < -0.01`, otherwise score it by `logDetSentinel` and
keep it when the score beats the best so far (`None` is the initial
`bestls = None` with `bestLogDetM = np.Inf`, which any score beats). -/
noncomputable def roundStep [NeZero n]
    (pinv : Matrix (Fin d) (Fin d) ℝ → Matrix (Fin d) (Fin d) ℝ)
    (cs : Fin n → Fin d → ℝ) (rands : ℕ → ℕ → Fin n → ℝ) (Nits k : ℕ)
    (best : Option (ℝ × (Fin n → ℝ))) (j : ℕ) :
    Option (ℝ × (Fin n → ℝ)) :=
  let ls := attemptOf pinv cs rands Nits k j
  if npmin ls < -0.01 then best
  else
    let s := logDetSentinel (calcM ls cs)
    match best with
    | none => some (s, ls)
    | some (b, bls) => if s < b then some (s, ls) else some (b, bls)

/-- One outer round of `findLambdas_repeat`: the `for it in range(Nattempts)`
loop, starting (as every round does) from `bestls = None`. -/
noncomputable def runRound [NeZero n]
    (pinv : Matrix (Fin d) (Fin d) ℝ → Matrix (Fin d) (Fin d) ℝ)
    (cs : Fin n → Fin d → ℝ) (rands : ℕ → ℕ → Fin n → ℝ)
    (Nattempts Nits k : ℕ) (best : Option (ℝ × (Fin n → ℝ))) :
    Option (ℝ × (Fin n → ℝ)) :=
  (List.range Nattempts).foldl (roundStep pinv cs rands Nits k) best

/-- The message of the `raise ValueError` at line 378 of the source. -/
def repeatFailMsg : String :=
  "A value for the lambda vector cannot be computed given this cloaking matrix, cs. 1000 attempts have been made at convergence."

/-- The `while bestls is None` loop of `findLambdas_repeat` (lines 355-378),
by recursion on fuel.  Each round runs `Nattempts` gradient-descent
attempts, then increments `count` and raises once `count > 1000`; otherwise,
if a candidate was stored, it is returned, else the loop repeats.  The loop
body can execute at most 1001 times before the raise, so fuel 1001 makes
the fuel-exhausted case unreachable (it is mapped to the same error). -/
noncomputable def repeatAux [NeZero n]
    (pinv : Matrix (Fin d) (Fin d) ℝ → Matrix (Fin d) (Fin d) ℝ)
    (cs : Fin n → Fin d → ℝ) (rands : ℕ → ℕ → Fin n → ℝ)
    (Nattempts Nits : ℕ) : ℕ → ℕ → Except String (Fin n → ℝ)
  | _, 0 => .error repeatFailMsg
  | count, fuel + 1 =>
    let best := runRound pinv cs rands Nattempts Nits count none
    if 1000 < count + 1 then .error repeatFailMsg
    else
      match best with
      | some (_, ls) => .ok ls
      | none => repeatAux pinv cs rands Nattempts Nits (count + 1) fuel

/-- `DPGP_cloaking.findLambdas_repeat` (lines 351-381). -/
noncomputable def findLambdas_repeat [NeZero n]
    (pinv : Matrix (Fin d) (Fin d) ℝ → Matrix (Fin d) (Fin d) ℝ)
    (cs : Fin n → Fin d → ℝ) (rands : ℕ → ℕ → Fin n → ℝ)
    (Nattempts Nits : ℕ) : Except String (Fin n → ℝ) :=
  repeatAux pinv cs rands Nattempts Nits 0 1001

/-- `DPGP_cloaking.calcDelta` (lines 383-395): the maximum over the
`zip(ls,cs)` loop of `c.T · Minv · c` with `Minv = np.linalg.pinv(M)`;
the running maximum starts at `-np.Inf`, so for a nonempty family it is the
maximum of the quadratic forms. -/
noncomputable def calcDelta [NeZero n]
    (pinv : Matrix (Fin d) (Fin d) ℝ → Matrix (Fin d) (Fin d) ℝ)
    (ls : Fin n → ℝ) (cs : Fin n → Fin d → ℝ) : ℝ :=
  npmax fun i => cs i ⬝ᵥ (pinv (calcM ls cs)).mulVec (cs i)

/-- `DPGP_cloaking.get_C` (lines 419-428): the cloaking matrix
`C = np.dot(K_Nstar, K_NNinv)` where
`K_NNinv = np.linalg.inv(K_NN + sigmasqr*np.eye(...))`. -/
noncomputable def get_C (mdl : GPModel α n) (Xtest : Fin mtest → α) :
    Matrix (Fin mtest) (Fin n) ℝ :=
  Kmat mdl.kern Xtest mdl.X * (Kmat mdl.kern mdl.X mdl.X
      + mdl.sigmasqr • (1 : Matrix (Fin n) (Fin n) ℝ))⁻¹

/-- The list of cloaking vectors built at lines 437-439:
`cs[i] = C[:,i][:,None]`, the `i`-th column of `C` as a column vector. -/
noncomputable def cloakCS (mdl : GPModel α n) (Xtest : Fin mtest → α) :
    Fin n → Fin mtest → ℝ :=
  fun i r => get_C mdl Xtest r i

/-- `DPGP_cloaking.draw_noise_samples` (lines 430-455), returning the
predictive mean `mu = np.dot(C, Y)` and the reported noise covariance
`sampcov = ((sens*c*Delta/epsilon)**2)*M` with
`c = np.sqrt(2*np.log(2/delta))`, or the error raised by
`findLambdas_repeat`. -/
noncomputable def cloaking_draw_noise_samples [NeZero n]
    (pinv : Matrix (Fin mtest) (Fin mtest) ℝ → Matrix (Fin mtest) (Fin mtest) ℝ)
    (self : DPGPBase α n) (Xtest : Fin mtest → α)
    (rands : ℕ → ℕ → Fin n → ℝ) (Nattempts Nits : ℕ) :
    Except String ((Fin mtest → ℝ) × Matrix (Fin mtest) (Fin mtest) ℝ) :=
  let C := get_C self.model Xtest
  let cs := cloakCS self.model Xtest
  match findLambdas_repeat pinv cs rands Nattempts Nits with
  | .error e => .error e
  | .ok ls =>
    let M := calcM ls cs
    let c := Real.sqrt (2 * Real.log (2 / self.delta))
    let Delta := calcDelta pinv ls cs
    let sampcov := ((self.sens * c * Delta / self.epsilon) ^ 2) • M
    let mu := C.mulVec self.model.Y
    .ok (mu, sampcov)

section MaxLemmas

variable {n : ℕ} [NeZero n]

lemma exists_npmax_eq (f : Fin n → ℝ) : ∃ i, npmax f = f i := by
  unfold npmax
  obtain ⟨i, _, hi⟩ := Finset.exists_mem_eq_sup' (f := f)
    (Finset.univ_nonempty (α := Fin n))
  exact ⟨i, hi⟩

lemma le_npmax (f : Fin n → ℝ) (i : Fin n) : f i ≤ npmax f :=
  Finset.le_sup' f (Finset.mem_univ i)

lemma npmax_isGreatest (f : Fin n → ℝ) :
    IsGreatest (Set.range f) (npmax f) := by
  obtain ⟨i, hi⟩ := exists_npmax_eq f
  exact ⟨⟨i, hi.symm⟩, by rintro x ⟨j, rfl⟩; exact le_npmax f j⟩

lemma npmaxO_eq_some (f : Fin n → ℝ) : npmaxO f = some (npmax f) := by
  haveI : Std.Antisymm ((· : ℝ) ≤ ·) := ⟨@fun _ _ h1 h2 => le_antisymm h1 h2⟩
  rw [npmaxO]
  rw [List.max?_eq_some_iff le_refl max_choice (fun _ _ _ => max_le_iff)]
  constructor
  · obtain ⟨i, hi⟩ := exists_npmax_eq f
    exact (List.mem_ofFn _ _).mpr ⟨i, hi.symm⟩
  · intro b hb
    obtain ⟨i, rfl⟩ := (List.mem_ofFn _ _).mp hb
    exact le_npmax f i

lemma npmin_le (f : Fin n → ℝ) (i : Fin n) : npmin f ≤ f i :=
  Finset.inf'_le f (Finset.mem_univ i)

lemma le_npmin (f : Fin n → ℝ) (c : ℝ) (h : ∀ i, c ≤ f i) : c ≤ npmin f := by
  unfold npmin
  exact Finset.le_inf' _ _ fun i _ => h i

end MaxLemmas

/-- For a matrix with at least one row, `calc_msense` succeeds and returns
the larger of the two clipped maximum absolute row sums. -/
lemma calc_msense_nonempty {a b : ℕ} [NeZero a] (A : Matrix (Fin a) (Fin b) ℝ) :
    calc_msense A = some
      (max (npmax fun i => |∑ j, max (A i j) 0|)
           (npmax fun i => |∑ j, max (-A i j) 0|)) := by
  rw [calc_msense, npmaxO_eq_some, npmaxO_eq_some]

/-- A concrete one-training-point dense GP model used to instantiate
theorems: one input point, constant kernel `1`, noise variance `1`. -/
def mdlOne : GPModel Unit 1 :=
  { X := fun _ => (), Y := fun _ => 1, kern := fun _ _ => 1,
    sigmasqr := 1, inference_method := .exactGaussian }

/-- A concrete one-point test grid for `mdlOne`. -/
def XtOne : Fin 1 → Unit := fun _ => ()

/-- C3, counterexample.  The claim asserts `calc_msense` is a total function
of every square real matrix with no failure modes, but on the (concrete)
`0 × 0` matrix the source crashes: `np.max` of the empty row-sum array
raises `ValueError`, modelled by the `none` result. -/
theorem calc_msense_empty_fails :
    calc_msense (0 : Matrix (Fin 0) (Fin 0) ℝ) = none := by
  simp [calc_msense, npmaxO]

/-- C3 (amended): for every square real matrix with at least one row,
`calc_msense A` succeeds and returns `max v1 v2`, where `v1` is the maximum
absolute row sum of `A` clipped to non-negative entries and `v2` is the
maximum absolute row sum of `-A` clipped to non-negative entries, and the
result is `≥ 0`. -/
theorem calc_msense_spec (A : Matrix (Fin n) (Fin n) ℝ) (h : 0 < n) :
    ∃ v1 v2,
      IsGreatest (Set.range fun i => |∑ j, max (A i j) 0|) v1 ∧
      IsGreatest (Set.range fun i => |∑ j, max (-A i j) 0|) v2 ∧
      calc_msense A = some (max v1 v2) ∧ 0 ≤ max v1 v2 := by
  haveI : NeZero n := ⟨h.ne'⟩
  refine ⟨npmax (fun i => |∑ j, max (A i j) 0|),
          npmax (fun i => |∑ j, max (-A i j) 0|),
          npmax_isGreatest _, npmax_isGreatest _, ?_, ?_⟩
  · rw [calc_msense, npmaxO_eq_some, npmaxO_eq_some]
  · obtain ⟨i, hi⟩ := exists_npmax_eq (fun i => |∑ j, max (A i j) 0|)
    have h0 : (0:ℝ) ≤ npmax (fun i => |∑ j, max (A i j) 0|) := by
      rw [hi]; positivity
    exact le_trans h0 (le_max_left _ _)

/-- C3, witness: the amended theorem applied to the concrete `1 × 1` matrix
`[[-3]]`. -/
theorem calc_msense_spec_witness :
    (0 < 1) ∧
    ∃ v1 v2,
      IsGreatest (Set.range fun i =>
        |∑ j, max ((Matrix.of fun _ _ => (-3:ℝ) : Matrix (Fin 1) (Fin 1) ℝ) i j) 0|) v1 ∧
      IsGreatest (Set.range fun i =>
        |∑ j, max (-(Matrix.of fun _ _ => (-3:ℝ) : Matrix (Fin 1) (Fin 1) ℝ) i j) 0|) v2 ∧
      calc_msense (Matrix.of fun _ _ => (-3:ℝ) : Matrix (Fin 1) (Fin 1) ℝ)
        = some (max v1 v2) ∧ 0 ≤ max v1 v2 :=
  ⟨by norm_num,
   calc_msense_spec (Matrix.of fun _ _ => (-3:ℝ) : Matrix (Fin 1) (Fin 1) ℝ)
     (by norm_num)⟩

lemma inv_one_one (A : Matrix (Fin 1) (Fin 1) ℝ) : A⁻¹ 0 0 = (A 0 0)⁻¹ := by
  rw [Matrix.inv_def, Matrix.det_fin_one, Matrix.adjugate_fin_one,
    Ring.inverse_eq_inv]
  simp

/-- C4, counterexample.  On a concrete model with kernel constantly `1` and
noise variance `1`, `get_C` does not equal `K(Xtest,X) · K_NN⁻¹`: the code
inverts `K_NN + sigmasqr·I` (line 425), not the bare train-train kernel
matrix, so the entry is `1/2` rather than `1`. -/
theorem get_C_not_bare_inverse :
    get_C mdlOne XtOne ≠
      Kmat mdlOne.kern XtOne mdlOne.X *
        (Kmat mdlOne.kern mdlOne.X mdlOne.X)⁻¹ := by
  intro h
  have h00 := congrFun (congrFun h 0) 0
  have hL : get_C mdlOne XtOne 0 0 = 1 / 2 := by
    rw [get_C, Matrix.mul_apply, Fin.sum_univ_one, inv_one_one]
    simp [Kmat, mdlOne, XtOne, Matrix.add_apply, Matrix.smul_apply,
      Matrix.one_apply_eq]
    norm_num
  have hR : (Kmat mdlOne.kern XtOne mdlOne.X *
      (Kmat mdlOne.kern mdlOne.X mdlOne.X)⁻¹) 0 0 = 1 := by
    rw [Matrix.mul_apply, Fin.sum_univ_one, inv_one_one]
    simp [Kmat, mdlOne, XtOne]
  rw [hL, hR] at h00
  norm_num at h00

/-- C4 (amended): the cloaking vectors used by the optimizer are the columns
of `C = K(Xtest,X) · (K_NN + sigmasqr·I)⁻¹` — the inverse is of the noisy
train-train matrix, not of `K_NN` alone — and whenever that matrix is
invertible, `C` is the unique solution of `C · (K_NN + sigmasqr·I) =
K(Xtest,X)`. -/
theorem get_C_spec (mdl : GPModel α n) (Xtest : Fin mtest → α) :
    (∀ i, cloakCS mdl Xtest i = fun r =>
      (Kmat mdl.kern Xtest mdl.X * (Kmat mdl.kern mdl.X mdl.X
        + mdl.sigmasqr • (1 : Matrix (Fin n) (Fin n) ℝ))⁻¹) r i) ∧
    (IsUnit (Kmat mdl.kern mdl.X mdl.X
        + mdl.sigmasqr • (1 : Matrix (Fin n) (Fin n) ℝ)).det →
      get_C mdl Xtest * (Kmat mdl.kern mdl.X mdl.X
        + mdl.sigmasqr • (1 : Matrix (Fin n) (Fin n) ℝ))
        = Kmat mdl.kern Xtest mdl.X) := by
  constructor
  · intro i; rfl
  · intro h
    rw [get_C]
    exact Matrix.nonsing_inv_mul_cancel_right _ _ h

/-- C4, witness: the amended theorem applied to the concrete model
`mdlOne`, whose noisy train-train matrix `[[2]]` is invertible. -/
theorem get_C_spec_witness :
    IsUnit (Kmat mdlOne.kern mdlOne.X mdlOne.X
      + mdlOne.sigmasqr • (1 : Matrix (Fin 1) (Fin 1) ℝ)).det ∧
    get_C mdlOne XtOne * (Kmat mdlOne.kern mdlOne.X mdlOne.X
      + mdlOne.sigmasqr • (1 : Matrix (Fin 1) (Fin 1) ℝ))
      = Kmat mdlOne.kern XtOne mdlOne.X := by
  have hu : IsUnit (Kmat mdlOne.kern mdlOne.X mdlOne.X
      + mdlOne.sigmasqr • (1 : Matrix (Fin 1) (Fin 1) ℝ)).det := by
    rw [Matrix.det_fin_one]
    simp [Kmat, mdlOne, Matrix.add_apply, Matrix.smul_apply,
      Matrix.one_apply_eq]
  exact ⟨hu, (get_C_spec mdlOne XtOne).2 hu⟩

/-- C7: the `assert epsilon<=1` in `DPGP_cloaking.__init__` runs in the
constructor itself, before any prediction: construction succeeds exactly
when `epsilon ≤ 1` (so `epsilon = 1` is accepted), and any `epsilon > 1`
fails with the `AssertionError` carrying the Hall et al. 2013 message. -/
theorem cloaking_init_spec (mdl : GPModel α n) (sens epsilon delta : ℝ) :
    (epsilon ≤ 1 → DPGP_cloaking_init mdl sens epsilon delta =
      .ok { model := mdl, sens := sens, epsilon := epsilon, delta := delta }) ∧
    (1 < epsilon → DPGP_cloaking_init mdl sens epsilon delta =
      .error cloakingEpsMsg) := by
  constructor
  · intro h
    rw [DPGP_cloaking_init, if_pos h]
  · intro h
    rw [DPGP_cloaking_init, if_neg (not_le.mpr h)]

/-- C7, witness: with the concrete model `mdlOne`, construction at
`epsilon = 1` succeeds and construction at `epsilon = 1.0001` fails. -/
theorem cloaking_init_spec_witness :
    DPGP_cloaking_init mdlOne 2 1 (1/100) =
      .ok { model := mdlOne, sens := 2, epsilon := 1, delta := 1/100 } ∧
    DPGP_cloaking_init mdlOne 2 1.0001 (1/100) = .error cloakingEpsMsg :=
  ⟨(cloaking_init_spec mdlOne 2 1 (1/100)).1 (by norm_num),
   (cloaking_init_spec mdlOne 2 1.0001 (1/100)).2 (by norm_num)⟩

/-- C8: the memory-optimised `K_pseudoInv` (column-wise broadcast by the 1-d
array `diag`) equals the "slow" product with the full diagonal matrix on
every input, so the `assert` the sparse mechanism performs on every call of
`draw_noise_samples` never fires. -/
theorem pseudoInv_assert_spec (smdl : SparseGPModel α n M) :
    K_pseudoInv smdl = K_pseudoInv_slow smdl ∧
    ∀ (sens epsilon delta : ℝ) (mtest : ℕ) (Xtest : Fin mtest → α),
      pseudo_prior_draw_result smdl sens epsilon delta Xtest ≠
        .error pseudoAssertMsg := by
  have key : K_pseudoInv smdl = K_pseudoInv_slow smdl := by
    ext i j
    rw [K_pseudoInv, K_pseudoInv_slow, Matrix.mul_diagonal]
    rfl
  refine ⟨key, fun sens epsilon delta mtest Xtest => ?_⟩
  rw [pseudo_prior_draw_result, if_pos key]
  cases h : calc_msense (K_pseudoInv smdl) with
  | none =>
    simp only []
    intro habs
    have : "ValueError: zero-size array to reduction operation"
        = pseudoAssertMsg := Except.error.inj habs
    simp [pseudoAssertMsg] at this
  | some v => simp

/-- A concrete sparse GP model (one training point, one inducing point)
with the GPy `SparseGPRegression` default inference method `VarDTC`. -/
def smdlOne : SparseGPModel Unit 1 1 :=
  { X := fun _ => (), Y := fun _ => 1, kern := fun _ _ => 1,
    sigmasqr := 1, inference_method := .varDTC, Z := fun _ => () }

/-- C9, counterexample.  A call of the sparse prior mechanism's
`draw_noise_samples` on a concrete model modifies a field of the model:
line 225 sets `self.model.inference_method = FITC()`, so the model after
the call differs from the model before it. -/
theorem pseudo_draw_mutates_model :
    (pseudo_prior_draw_noise_samples smdlOne 2 1 (1/100)
      (fun _ : Fin 1 => ())).1 ≠ smdlOne := by
  intro h
  have h2 := congrArg SparseGPModel.inference_method h
  rw [pseudo_prior_draw_noise_samples] at h2
  exact absurd h2 (by simp [smdlOne])

/-- C9 (amended): a `draw_noise_samples` call of the sparse prior mechanism
leaves every field of the model unchanged except `inference_method`, which
it sets to FITC; the dense prior and cloaking mechanisms' draw methods are
pure functions of the model and modify nothing.  All derived matrices are
fresh values of the call. -/
theorem pseudo_draw_model_spec (smdl : SparseGPModel α n M)
    (sens epsilon delta : ℝ) (Xtest : Fin mtest → α) :
    (pseudo_prior_draw_noise_samples smdl sens epsilon delta Xtest).1.X
        = smdl.X ∧
    (pseudo_prior_draw_noise_samples smdl sens epsilon delta Xtest).1.Y
        = smdl.Y ∧
    (pseudo_prior_draw_noise_samples smdl sens epsilon delta Xtest).1.kern
        = smdl.kern ∧
    (pseudo_prior_draw_noise_samples smdl sens epsilon delta Xtest).1.sigmasqr
        = smdl.sigmasqr ∧
    (pseudo_prior_draw_noise_samples smdl sens epsilon delta Xtest).1.Z
        = smdl.Z ∧
    (pseudo_prior_draw_noise_samples smdl sens epsilon delta
        Xtest).1.inference_method = .fitc ∧
    (pseudo_prior_draw_noise_samples smdl sens epsilon delta Xtest).2
        = pseudo_prior_draw_result smdl sens epsilon delta Xtest :=
  ⟨rfl, rfl, rfl, rfl, rfl, rfl, rfl⟩

/-- C10: the output of the gradient-descent backend `findLambdas_grad` is
entrywise non-negative whenever the `np.random.rand` draws are non-negative
(they lie in `[0,1)`): the start `0.1*rand*0.8` is non-negative and every
iteration clips negative entries to zero before the convergence test.
Consequently `np.min` of the output is `≥ 0 > -0.01`, so the feasibility
rejection in `findLambdas_repeat` is never triggered by this backend. -/
theorem findLambdas_grad_nonneg [NeZero n]
    (pinv : Matrix (Fin d) (Fin d) ℝ → Matrix (Fin d) (Fin d) ℝ)
    (cs : Fin n → Fin d → ℝ) (rand : Fin n → ℝ) (maxit : ℕ)
    (h : ∀ i, 0 ≤ rand i) :
    (∀ i, 0 ≤ findLambdas_grad pinv cs rand maxit i) ∧
    ¬ (npmin (findLambdas_grad pinv cs rand maxit) < -0.01) := by
  have loop : ∀ (it : ℕ) (ls : Fin n → ℝ), (∀ i, 0 ≤ ls i) →
      ∀ i, 0 ≤ gradLoop pinv cs it ls i := by
    intro it
    induction it with
    | zero => intro ls hls i; exact hls i
    | succ it ih =>
      intro ls hls i
      rw [gradLoop]
      have hclip : ∀ j, (0:ℝ) ≤
          (fun j => if ls j + -(dL_dl pinv ls cs j) * 0.05 < 0 then 0
            else ls j + -(dL_dl pinv ls cs j) * 0.05) j := by
        intro j
        dsimp only []
        split
        · exact le_refl 0
        · next hc => exact le_of_not_lt hc
      split
      · exact hclip i
      · exact ih _ hclip i
  have hstart : ∀ i, (0:ℝ) ≤ 0.1 * rand i * 0.8 := by
    intro i
    have := h i
    positivity
  have hmain : ∀ i, 0 ≤ findLambdas_grad pinv cs rand maxit i := by
    intro i
    rw [findLambdas_grad]
    exact loop maxit _ hstart i
  refine ⟨hmain, not_lt.mpr ?_⟩
  calc (-0.01 : ℝ) ≤ 0 := by norm_num
    _ ≤ npmin (findLambdas_grad pinv cs rand maxit) :=
        le_npmin _ _ hmain

/-- C10, witness: the theorem applied to a concrete one-dimensional
instance with the zero random draw. -/
theorem findLambdas_grad_nonneg_witness :
    (∀ i, 0 ≤ findLambdas_grad (n := 1) (d := 1) (fun A => A)
      (fun _ _ => 1) (fun _ => 0) 7 i) ∧
    ¬ (npmin (findLambdas_grad (n := 1) (d := 1) (fun A => A)
      (fun _ _ => 1) (fun _ => 0) 7) < -0.01) :=
  findLambdas_grad_nonneg (fun A => A) (fun _ _ => 1) (fun _ => 0) 7
    (fun _ => le_refl 0)

/-- C2: for every test-point set, the dense prior mechanism's
`draw_noise_samples` reports the noise covariance
`test_cov * (sens*msense*sqrt(2*ln(2/delta))/epsilon)^2` where
`test_cov = K(Xtest,Xtest)` and `msense` is the matrix sensitivity of the
cached inverse of `K_NN + sigmasqr*I` (`0 < n` keeps `np.max` inside
`calc_msense` away from the empty-array error). -/
theorem normal_prior_draw_spec (mdl : GPModel α n)
    (sens epsilon delta : ℝ) (Xtest : Fin mtest → α) (h : 0 < n) :
    ∃ msense,
      calc_msense (DPGP_normal_prior_init mdl sens epsilon delta).invCov
        = some msense ∧
      (DPGP_normal_prior_init mdl sens epsilon delta).invCov
        = (Kmat mdl.kern mdl.X mdl.X
            + mdl.sigmasqr • (1 : Matrix (Fin n) (Fin n) ℝ))⁻¹ ∧
      normal_prior_draw_noise_samples
          (DPGP_normal_prior_init mdl sens epsilon delta) Xtest =
        some (((Kmat mdl.kern mdl.X Xtest)ᵀ * (Kmat mdl.kern mdl.X mdl.X
            + mdl.sigmasqr • (1 : Matrix (Fin n) (Fin n) ℝ))⁻¹).mulVec mdl.Y,
          (sens * msense * Real.sqrt (2 * Real.log (2 / delta))
              / epsilon) ^ 2 • Kmat mdl.kern Xtest Xtest) := by
  haveI : NeZero n := ⟨h.ne'⟩
  refine ⟨_, calc_msense_nonempty _, rfl, ?_⟩
  simp only [normal_prior_draw_noise_samples, DPGP_normal_prior_init,
    calc_msense_nonempty]
  congr 2
  ring_nf

/-- C2, witness: the theorem applied to the concrete model `mdlOne` and the
one-point test grid. -/
theorem normal_prior_draw_spec_witness :
    (0 < 1) ∧
    ∃ msense,
      calc_msense (DPGP_normal_prior_init mdlOne 2 1 (1/100)).invCov
        = some msense ∧
      (DPGP_normal_prior_init mdlOne 2 1 (1/100)).invCov
        = (Kmat mdlOne.kern mdlOne.X mdlOne.X
            + mdlOne.sigmasqr • (1 : Matrix (Fin 1) (Fin 1) ℝ))⁻¹ ∧
      normal_prior_draw_noise_samples
          (DPGP_normal_prior_init mdlOne 2 1 (1/100)) XtOne =
        some (((Kmat mdlOne.kern mdlOne.X XtOne)ᵀ
            * (Kmat mdlOne.kern mdlOne.X mdlOne.X
            + mdlOne.sigmasqr • (1 : Matrix (Fin 1) (Fin 1) ℝ))⁻¹).mulVec
              mdlOne.Y,
          ((2:ℝ) * msense * Real.sqrt (2 * Real.log (2 / (1/100)))
              / 1) ^ 2 • Kmat mdlOne.kern XtOne XtOne) :=
  ⟨by norm_num, normal_prior_draw_spec mdlOne 2 1 (1/100) XtOne (by norm_num)⟩

/-- C1: the calibration postcondition of the cloaking mechanism's
`draw_noise_samples`.  Whatever lambda vector `ls` the optimizer produces,
the call returns exactly the predictive mean `C·Y` together with the noise
covariance `M * (sens*sqrt(2*ln(2/delta))*Delta/epsilon)^2` for
`M = calcM(ls,cs)` (and propagates the optimizer's error otherwise); and
for every `ls`, the `Delta` returned by `calcDelta` is the maximum over `i`
of `c_iᵀ · pinv(M) · c_i`, `pinv` being the externally computed
pseudo-inverse. -/
theorem cloaking_draw_spec [NeZero n]
    (pinv : Matrix (Fin mtest) (Fin mtest) ℝ → Matrix (Fin mtest) (Fin mtest) ℝ)
    (self : DPGPBase α n) (Xtest : Fin mtest → α)
    (rands : ℕ → ℕ → Fin n → ℝ) (Nattempts Nits : ℕ) :
    cloaking_draw_noise_samples pinv self Xtest rands Nattempts Nits
      = (findLambdas_repeat pinv (cloakCS self.model Xtest) rands
            Nattempts Nits).map
          (fun ls => ((get_C self.model Xtest).mulVec self.model.Y,
            ((self.sens * Real.sqrt (2 * Real.log (2 / self.delta))
                * calcDelta pinv ls (cloakCS self.model Xtest)
                / self.epsilon) ^ 2)
              • calcM ls (cloakCS self.model Xtest))) ∧
    ∀ ls : Fin n → ℝ,
      IsGreatest
        (Set.range fun i => cloakCS self.model Xtest i ⬝ᵥ
          (pinv (calcM ls (cloakCS self.model Xtest))).mulVec
            (cloakCS self.model Xtest i))
        (calcDelta pinv ls (cloakCS self.model Xtest)) := by
  constructor
  · rw [cloaking_draw_noise_samples]
    cases h : findLambdas_repeat pinv (cloakCS self.model Xtest) rands
        Nattempts Nits with
    | error e => simp [Except.map]
    | ok ls => simp [Except.map]
  · intro ls
    exact npmax_isGreatest _

/-- The concrete cloaking-mechanism object built from `mdlOne` with
`sens = 2`, `epsilon = 1`, `delta = 1/100`. -/
noncomputable def baseOne : DPGPBase Unit 1 :=
  { model := mdlOne, sens := 2, epsilon := 1, delta := 1/100 }

/-- C1, witness: the theorem applied to the concrete mechanism `baseOne`,
the identity standing in for the external pseudo-inverse, and the zero
random stream. -/
theorem cloaking_draw_spec_witness :
    cloaking_draw_noise_samples (fun A => A) baseOne XtOne
        (fun _ _ _ => 0) 1 0
      = (findLambdas_repeat (fun A => A) (cloakCS baseOne.model XtOne)
            (fun _ _ _ => 0) 1 0).map
          (fun ls => ((get_C baseOne.model XtOne).mulVec baseOne.model.Y,
            ((baseOne.sens * Real.sqrt (2 * Real.log (2 / baseOne.delta))
                * calcDelta (fun A => A) ls (cloakCS baseOne.model XtOne)
                / baseOne.epsilon) ^ 2)
              • calcM ls (cloakCS baseOne.model XtOne))) ∧
    ∀ ls : Fin 1 → ℝ,
      IsGreatest
        (Set.range fun i => cloakCS baseOne.model XtOne i ⬝ᵥ
          ((fun A => A) (calcM ls (cloakCS baseOne.model XtOne))).mulVec
            (cloakCS baseOne.model XtOne i))
        (calcDelta (fun A => A) ls (cloakCS baseOne.model XtOne)) :=
  cloaking_draw_spec (fun A => A) baseOne XtOne (fun _ _ _ => 0) 1 0

/-- Invariant of the best-candidate accumulator of `findLambdas_repeat`
after the first `jmax` attempts of round `k`: `none` means every attempt so
far was rejected as infeasible; `some (s, ls)` means `ls` is a feasible
attempt of the round whose sentinel score `s` is minimal among the feasible
attempts so far. -/
def bestInv [NeZero n]
    (pinv : Matrix (Fin d) (Fin d) ℝ → Matrix (Fin d) (Fin d) ℝ)
    (cs : Fin n → Fin d → ℝ) (rands : ℕ → ℕ → Fin n → ℝ)
    (Nits k jmax : ℕ) : Option (ℝ × (Fin n → ℝ)) → Prop
  | none => ∀ j < jmax, npmin (attemptOf pinv cs rands Nits k j) < -0.01
  | some (s, ls) =>
      (¬ (npmin ls < -0.01)) ∧
      s = logDetSentinel (calcM ls cs) ∧
      (∃ j < jmax, ls = attemptOf pinv cs rands Nits k j) ∧
      (∀ j < jmax, ¬ (npmin (attemptOf pinv cs rands Nits k j) < -0.01) →
        s ≤ logDetSentinel (calcM (attemptOf pinv cs rands Nits k j) cs))

lemma roundStep_inv [NeZero n]
    {pinv : Matrix (Fin d) (Fin d) ℝ → Matrix (Fin d) (Fin d) ℝ}
    {cs : Fin n → Fin d → ℝ} {rands : ℕ → ℕ → Fin n → ℝ}
    {Nits k jmax : ℕ} {st : Option (ℝ × (Fin n → ℝ))}
    (hst : bestInv pinv cs rands Nits k jmax st) :
    bestInv pinv cs rands Nits k (jmax + 1)
      (roundStep pinv cs rands Nits k st jmax) := by
  simp only [roundStep]
  by_cases hf : npmin (attemptOf pinv cs rands Nits k jmax) < -0.01
  · rw [if_pos hf]
    match st, hst with
    | none, hst =>
      intro j hj
      rcases Nat.lt_succ_iff_lt_or_eq.mp hj with hj' | rfl
      · exact hst j hj'
      · exact hf
    | some (s, ls), ⟨h1, h2, ⟨j0, hj0, hj0e⟩, h4⟩ =>
      refine ⟨h1, h2, ⟨j0, Nat.lt_succ_of_lt hj0, hj0e⟩, ?_⟩
      intro j hj hfeas
      rcases Nat.lt_succ_iff_lt_or_eq.mp hj with hj' | rfl
      · exact h4 j hj' hfeas
      · exact absurd hf hfeas
  · rw [if_neg hf]
    match st, hst with
    | none, hst =>
      refine ⟨hf, rfl, ⟨jmax, Nat.lt_succ_self _, rfl⟩, ?_⟩
      intro j hj hfeas
      rcases Nat.lt_succ_iff_lt_or_eq.mp hj with hj' | rfl
      · exact absurd (hst j hj') hfeas
      · exact le_refl _
    | some (b, bls), ⟨h1, h2, ⟨j0, hj0, hj0e⟩, h4⟩ =>
      dsimp only
      by_cases hlt : logDetSentinel
          (calcM (attemptOf pinv cs rands Nits k jmax) cs) < b
      · rw [if_pos hlt]
        refine ⟨hf, rfl, ⟨jmax, Nat.lt_succ_self _, rfl⟩, ?_⟩
        intro j hj hfeas
        rcases Nat.lt_succ_iff_lt_or_eq.mp hj with hj' | rfl
        · exact le_of_lt (lt_of_lt_of_le hlt (h4 j hj' hfeas))
        · exact le_refl _
      · rw [if_neg hlt]
        refine ⟨h1, h2, ⟨j0, Nat.lt_succ_of_lt hj0, hj0e⟩, ?_⟩
        intro j hj hfeas
        rcases Nat.lt_succ_iff_lt_or_eq.mp hj with hj' | rfl
        · exact h4 j hj' hfeas
        · exact le_of_not_lt hlt

lemma runRound_inv [NeZero n]
    (pinv : Matrix (Fin d) (Fin d) ℝ → Matrix (Fin d) (Fin d) ℝ)
    (cs : Fin n → Fin d → ℝ) (rands : ℕ → ℕ → Fin n → ℝ)
    (Nits k : ℕ) : ∀ Nattempts : ℕ,
    bestInv pinv cs rands Nits k Nattempts
      (runRound pinv cs rands Nattempts Nits k none) := by
  intro Nattempts
  induction Nattempts with
  | zero => intro j hj; exact absurd hj (Nat.not_lt_zero j)
  | succ A ih =>
    have : runRound pinv cs rands (A + 1) Nits k none
        = roundStep pinv cs rands Nits k
          (runRound pinv cs rands A Nits k none) A := by
      rw [runRound, runRound, List.range_succ, List.foldl_append,
        List.foldl_cons, List.foldl_nil]
    rw [this]
    exact roundStep_inv ih

lemma repeatAux_ok [NeZero n]
    {pinv : Matrix (Fin d) (Fin d) ℝ → Matrix (Fin d) (Fin d) ℝ}
    {cs : Fin n → Fin d → ℝ} {rands : ℕ → ℕ → Fin n → ℝ}
    {Nattempts Nits : ℕ} :
    ∀ (fuel count : ℕ) (ls : Fin n → ℝ),
      repeatAux pinv cs rands Nattempts Nits count fuel = .ok ls →
      ∃ k, count ≤ k ∧ k ≤ 999 ∧ ∃ s,
        runRound pinv cs rands Nattempts Nits k none = some (s, ls) := by
  intro fuel
  induction fuel with
  | zero => intro count ls h; exact absurd h (by simp [repeatAux])
  | succ fuel ih =>
    intro count ls h
    rw [repeatAux] at h
    by_cases hc : 1000 < count + 1
    · rw [if_pos hc] at h
      exact absurd h (by simp)
    · rw [if_neg hc] at h
      cases hb : runRound pinv cs rands Nattempts Nits count none with
      | none =>
        rw [hb] at h
        obtain ⟨k, hk1, hk2, hs⟩ := ih (count + 1) ls h
        exact ⟨k, le_trans (Nat.le_succ count) hk1, hk2, hs⟩
      | some p =>
        rw [hb] at h
        refine ⟨count, le_refl count, by omega, p.1, ?_⟩
        cases p with
        | mk s bls =>
          have : bls = ls := by
            simpa using h
          rw [hb]
          simp [this]

lemma repeatAux_total [NeZero n]
    {pinv : Matrix (Fin d) (Fin d) ℝ → Matrix (Fin d) (Fin d) ℝ}
    {cs : Fin n → Fin d → ℝ} {rands : ℕ → ℕ → Fin n → ℝ}
    {Nattempts Nits : ℕ} :
    ∀ (fuel count : ℕ),
      (∃ ls, repeatAux pinv cs rands Nattempts Nits count fuel = .ok ls ∧
        ¬ (npmin ls < -0.01)) ∨
      repeatAux pinv cs rands Nattempts Nits count fuel
        = .error repeatFailMsg := by
  intro fuel
  induction fuel with
  | zero => intro count; right; rw [repeatAux]
  | succ fuel ih =>
    intro count
    rw [repeatAux]
    by_cases hc : 1000 < count + 1
    · right; rw [if_pos hc]
    · rw [if_neg hc]
      cases hb : runRound pinv cs rands Nattempts Nits count none with
      | none => exact ih (count + 1)
      | some p =>
        left
        have hinv := runRound_inv pinv cs rands Nits count Nattempts
        rw [hb] at hinv
        cases p with
        | mk s bls => exact ⟨bls, rfl, hinv.1⟩

/-- C5: a lambda vector returned by `findLambdas_repeat` is the output of a
gradient-descent attempt of some outer round `k` (at most 1000 rounds run):
it passed the feasibility test `min(ls) ≥ -0.01`, and among the feasible
attempts of its round it has the smallest sentinel log-determinant score,
where an attempt whose `M` has determinant `≤ 0` is scored by the very
negative sentinel `-1000` instead of failing hard. -/
theorem findLambdas_repeat_spec [NeZero n]
    (pinv : Matrix (Fin d) (Fin d) ℝ → Matrix (Fin d) (Fin d) ℝ)
    (cs : Fin n → Fin d → ℝ) (rands : ℕ → ℕ → Fin n → ℝ)
    (Nattempts Nits : ℕ) (ls : Fin n → ℝ)
    (h : findLambdas_repeat pinv cs rands Nattempts Nits = .ok ls) :
    (¬ (npmin ls < -0.01)) ∧
    (∃ k ≤ 999,
      (∃ j < Nattempts, ls = attemptOf pinv cs rands Nits k j) ∧
      ∀ j < Nattempts,
        ¬ (npmin (attemptOf pinv cs rands Nits k j) < -0.01) →
          logDetSentinel (calcM ls cs)
            ≤ logDetSentinel (calcM (attemptOf pinv cs rands Nits k j) cs)) ∧
    (∀ B : Matrix (Fin d) (Fin d) ℝ, B.det ≤ 0 → logDetSentinel B = -1000) := by
  rw [findLambdas_repeat] at h
  obtain ⟨k, -, hk999, s, hrun⟩ := repeatAux_ok 1001 0 ls h
  have hinv := runRound_inv pinv cs rands Nits k Nattempts
  rw [hrun] at hinv
  obtain ⟨h1, h2, h3, h4⟩ := hinv
  refine ⟨h1, ⟨k, hk999, h3, ?_⟩, ?_⟩
  · intro j hj hfeas
    have := h4 j hj hfeas
    rwa [h2] at this
  · intro B hB
    rw [logDetSentinel, if_pos hB]

/-- C6: `findLambdas_repeat` cannot loop forever: on every input it either
returns a feasible lambda vector or fails with the "cannot be computed"
`ValueError` after the outer retry budget is exhausted — no default or
fallback lambda vector is ever produced on the failure path (the error
carries no vector at all). -/
theorem findLambdas_repeat_total [NeZero n]
    (pinv : Matrix (Fin d) (Fin d) ℝ → Matrix (Fin d) (Fin d) ℝ)
    (cs : Fin n → Fin d → ℝ) (rands : ℕ → ℕ → Fin n → ℝ)
    (Nattempts Nits : ℕ) :
    (∃ ls, findLambdas_repeat pinv cs rands Nattempts Nits = .ok ls ∧
      ¬ (npmin ls < -0.01)) ∨
    findLambdas_repeat pinv cs rands Nattempts Nits
      = .error repeatFailMsg := by
  rw [findLambdas_repeat]
  exact repeatAux_total 1001 0

/-- A concrete one-vector cloaking family: a single 1-d cloaking vector. -/
noncomputable def csOne : Fin 1 → Fin 1 → ℝ := fun _ _ => 1

/-- The all-zeros `np.random.rand` stream. -/
noncomputable def randsZero : ℕ → ℕ → Fin 1 → ℝ := fun _ _ _ => 0

/-- The start vector `0.1*rand*0.8` built from the zero random draw. -/
noncomputable def lsZero : Fin 1 → ℝ := fun _ => 0.1 * 0 * 0.8

lemma attempt_eval :
    attemptOf (n := 1) (d := 1) (fun A => A) csOne randsZero 0 0 0
      = lsZero := rfl

lemma lsZero_feasible : ¬ (npmin lsZero < -0.01) := by
  have hmin : npmin lsZero = lsZero 0 := by
    simp only [npmin, Finset.univ_unique, Finset.inf'_singleton]
    rfl
  rw [hmin]
  norm_num [lsZero]

lemma lsZero_det : (calcM lsZero csOne).det ≤ 0 := by
  rw [Matrix.det_fin_one, calcM]
  rw [Matrix.sum_apply, Fin.sum_univ_one, Matrix.smul_apply,
    Matrix.vecMulVec_apply]
  norm_num [lsZero, csOne]

lemma round_eval :
    runRound (fun A => A) csOne randsZero 1 0 0 none
      = some (-1000, lsZero) := by
  have h1 : List.range 1 = [0] := rfl
  rw [runRound, h1, List.foldl_cons, List.foldl_nil]
  simp only [roundStep, attempt_eval]
  rw [if_neg lsZero_feasible]
  rw [logDetSentinel, if_pos lsZero_det]

lemma repeat_eval :
    findLambdas_repeat (fun A => A) csOne randsZero 1 0 = .ok lsZero := by
  rw [findLambdas_repeat]
  show repeatAux (fun A => A) csOne randsZero 1 0 0 (1000 + 1) = .ok lsZero
  rw [repeatAux]
  simp only [round_eval]
  rw [if_neg (by norm_num : ¬ (1000 < 0 + 1))]

/-- C5, witness: the theorem applied to the concrete run of
`findLambdas_repeat` on `csOne` with the zero random stream, one attempt
per round and zero gradient iterations, which returns `lsZero`. -/
theorem findLambdas_repeat_spec_witness :
    (findLambdas_repeat (fun A => A) csOne randsZero 1 0 = .ok lsZero) ∧
    ((¬ (npmin lsZero < -0.01)) ∧
     (∃ k ≤ 999,
       (∃ j < 1, lsZero = attemptOf (fun A => A) csOne randsZero 0 k j) ∧
       ∀ j < 1,
         ¬ (npmin (attemptOf (fun A => A) csOne randsZero 0 k j) < -0.01) →
           logDetSentinel (calcM lsZero csOne)
             ≤ logDetSentinel
                 (calcM (attemptOf (fun A => A) csOne randsZero 0 k j)
                   csOne)) ∧
     (∀ B : Matrix (Fin 1) (Fin 1) ℝ, B.det ≤ 0 →
        logDetSentinel B = -1000)) :=
  ⟨repeat_eval,
   findLambdas_repeat_spec (fun A => A) csOne randsZero 1 0 lsZero
     repeat_eval⟩

/-- C6, witness: the theorem applied to the concrete input `csOne` with the
zero random stream. -/
theorem findLambdas_repeat_total_witness :
    (∃ ls, findLambdas_repeat (fun A => A) csOne randsZero 1 0 = .ok ls ∧
      ¬ (npmin ls < -0.01)) ∨
    findLambdas_repeat (fun A => A) csOne randsZero 1 0
      = .error repeatFailMsg :=
  findLambdas_repeat_total (fun A => A) csOne randsZero 1 0
